import Mathlib

/-!
Verification of the Block Reshaper of the FLN data converter (`src/app.py`).

The core of the application is `process_data`: it cleans every answer cell of a
respondent row to an integer (`clean_val`), slices the cleaned sequence into
fixed-size blocks, computes a per-respondent output row count (`max_rows`,
depending on the case mode), and expands the respondent into that many output
rows.  The definitions below are a shallow embedding of that code; pandas /
Python primitives (`str.strip`, `float(str)`, `int(float)`, `fillna`, list
slicing) are modelled explicitly.
-/

set_option autoImplicit false
set_option exponentiation.threshold 2000
set_option maxRecDepth 4096

namespace FLN

/-- Python exceptions that can arise from `int(float(x))` in `clean_val`.
`ValueError` and `TypeError` are caught by the `except` clause of `clean_val`;
`OverflowError` (raised by `int()` on an infinite float) is not. -/
inductive PyErr where
  | valueError
  | overflowError
deriving DecidableEq, Repr

/-- An exact signed decimal value `(-1)^neg · mant · 10^exp`.  Every finite
binary64 float is a dyadic rational and therefore has an exact finite decimal
expansion, so this type represents every finite Python float exactly (binary
rounding of decimal literals is not modelled; this is faithful for every
value considered here). -/
structure Dec where
  neg : Bool
  mant : ℕ
  exp : ℤ
deriving DecidableEq, Repr

/-- The rational value denoted by a `Dec`, used on the specification side. -/
def Dec.toRat (d : Dec) : ℚ :=
  (if d.neg then -1 else 1) *
    (if 0 ≤ d.exp then (d.mant : ℚ) * (10 : ℚ) ^ d.exp.toNat
     else (d.mant : ℚ) / (10 : ℚ) ^ (-d.exp).toNat)

/-- A Python float as produced by `float(x)`: a finite value, or one of the
special values `inf`, `-inf`, `nan`. -/
inductive PyFloat where
  | finite (d : Dec)
  | inf
  | neginf
  | nan
deriving DecidableEq, Repr

/-- A raw spreadsheet/CSV cell as pandas hands it to the row loop of
`process_data`: textual, finite numeric (int or float, both carried as exact
decimal values), or missing (NaN / empty cell). -/
inductive Cell where
  | text (s : String)
  | num (d : Dec)
  | missing
deriving DecidableEq, Repr

/-- `fillna(0)` from `answers_raw = row[question_cols].astype('object').fillna(0)`:
a missing cell becomes the integer `0`. -/
def fillna0 (c : Cell) : Cell :=
  match c with
  | .missing => .num ⟨false, 0, 0⟩
  | c => c

/- ### A model of Python `float(str)` -/

/-- Take the leading decimal digits of a character list. -/
def takeDigits : List Char → List Char × List Char
  | [] => ([], [])
  | c :: cs =>
    if c.isDigit then
      let p := takeDigits cs
      (c :: p.1, p.2)
    else ([], c :: cs)

/-- Numeric value of a list of decimal digits (most significant first). -/
def natOfDigits (ds : List Char) : ℕ :=
  ds.foldl (fun a c => a * 10 + (c.toNat - 48)) 0

/-- Strip an optional leading sign; returns (isNegative, rest). -/
def stripSign : List Char → Bool × List Char
  | '-' :: cs => (true, cs)
  | '+' :: cs => (false, cs)
  | cs => (false, cs)

/-- Parse the optional exponent suffix (`e`/`E`, optional sign, digits) of a
Python float literal; the whole rest of the string must be consumed. -/
def parseExpPart (cs : List Char) : Option ℤ :=
  match cs with
  | [] => some 0
  | c :: rest =>
    if c = 'e' ∨ c = 'E' then
      let sp := stripSign rest
      let dp := takeDigits sp.2
      if dp.1.isEmpty ∨ ¬ dp.2.isEmpty then none
      else some (if sp.1 then -(natOfDigits dp.1 : ℤ) else (natOfDigits dp.1 : ℤ))
    else none

/-- Parse an unsigned Python float numeral into mantissa and decimal
exponent: digits, optional `.` and fraction digits (at least one digit
overall), optional exponent.  (Digit-group underscores are not modelled.) -/
def parseNumeral (cs : List Char) : Option (ℕ × ℤ) :=
  let ip := takeDigits cs
  match ip.2 with
  | '.' :: r2 =>
    let fp := takeDigits r2
    if ip.1.isEmpty ∧ fp.1.isEmpty then none
    else
      (parseExpPart fp.2).map fun e =>
        (natOfDigits (ip.1 ++ fp.1), e - fp.1.length)
  | r1 =>
    if ip.1.isEmpty then none
    else (parseExpPart r1).map fun e => (natOfDigits ip.1, e)

/-- Whether the magnitude of `mant · 10^exp` reaches `2^1024`, the binary64
overflow threshold (approximated by `2^1024`). -/
def decOverflows (mant : ℕ) (exp : ℤ) : Bool :=
  if 0 ≤ exp then 2 ^ 1024 ≤ mant * 10 ^ exp.toNat
  else 2 ^ 1024 * 10 ^ (-exp).toNat ≤ mant

/-- Model of Python `float(s)` on an already-stripped string: optional sign,
then `inf`/`infinity`/`nan` (case-insensitive) or a decimal numeral.  `none`
models a `ValueError`.  A finite result whose magnitude reaches the binary64
range bound overflows to the corresponding infinity, as C `strtod` does. -/
def pyFloatOfString (s : String) : Option PyFloat :=
  let sp := stripSign s.data
  let l := sp.2.map Char.toLower
  if l = "inf".data ∨ l = "infinity".data then
    some (if sp.1 then .neginf else .inf)
  else if l = "nan".data then some .nan
  else
    match parseNumeral sp.2 with
    | none => none
    | some me =>
      if decOverflows me.1 me.2 then some (if sp.1 then .neginf else .inf)
      else some (.finite ⟨sp.1, me.1, me.2⟩)

/-- The magnitude `mant · 10^exp` of a `Dec`, truncated to a natural number:
natural division rounds down, i.e. toward zero on a magnitude. -/
def decMag (d : Dec) : ℕ :=
  if 0 ≤ d.exp then d.mant * 10 ^ d.exp.toNat
  else d.mant / 10 ^ (-d.exp).toNat

/-- Truncation toward zero of the value of a `Dec`, the behaviour of Python
`int()` on a finite float: the truncated magnitude with the sign
reapplied. -/
def decTrunc (d : Dec) : ℤ :=
  if d.neg then -(decMag d : ℤ) else (decMag d : ℤ)

/-- Model of Python `int()` applied to a float: truncation toward zero on a
finite value, `OverflowError` on `±inf`, `ValueError` on `nan`. -/
def pyIntOfFloat : PyFloat → Except PyErr ℤ
  | .finite d => .ok (decTrunc d)
  | .inf => .error .overflowError
  | .neginf => .error .overflowError
  | .nan => .error .valueError

/- ### `clean_val` -/

/-- Python `str.strip()`: remove leading and trailing whitespace. -/
def pyStrip (s : String) : String :=
  ⟨((s.data.dropWhile Char.isWhitespace).reverse.dropWhile Char.isWhitespace).reverse⟩

/-- The inner `clean_val` of `process_data`:

    def clean_val(x):
        if isinstance(x, str):
            x = x.strip()
        try:
            return int(float(x))
        except (ValueError, TypeError):
            return 0

`float` on a non-string finite number is the identity.  A `ValueError`
(unparseable text, or `int(nan)`) is caught and yields `0`; the
`OverflowError` raised by `int(float('inf'))` is *not* caught and escapes. -/
def clean_val (x : Cell) : Except PyErr ℤ :=
  match x with
  | .text s =>
    match pyFloatOfString (pyStrip s) with
    | none => .ok 0
    | some f =>
      match pyIntOfFloat f with
      | .ok n => .ok n
      | .error .valueError => .ok 0
      | .error e => .error e
  | .num d => .ok (decTrunc d)
  | .missing => .ok 0

/-- Cleaning of one raw cell as the pipeline performs it: `fillna(0)` first,
then `clean_val`.  (`clean_val` itself never sees a missing value; the
`.missing` arm of `clean_val` corresponds to the unreachable `TypeError`
catch.) -/
def cleanCell (c : Cell) : Except PyErr ℤ :=
  clean_val (fillna0 c)

/-- A cell holding a (Python) integer value, as pandas produces for an
integer-valued CSV column. -/
def intCell (k : ℤ) : Cell :=
  Cell.num ⟨decide (k < 0), k.natAbs, 0⟩

/-- `answers = answers_raw.apply(clean_val)`: elementwise cleaning of the
answer cells; an uncaught exception at any cell aborts the whole call. -/
def cleanAll : List Cell → Except PyErr (List ℤ)
  | [] => .ok []
  | c :: cs =>
    match cleanCell c with
    | .error e => .error e
    | .ok v =>
      match cleanAll cs with
      | .error e => .error e
      | .ok vs => .ok (v :: vs)

/- ### Block slicing, `max_rows`, row generation -/

/-- The block-slicing loop of `process_data`:

    for i in range(total_blocks):
        start = i * questions_per_block
        end = start + questions_per_block
        block_pattern = answers.iloc[start:end].tolist()
        blocks.append(block_pattern)

`answers.iloc[start:end]` is Python slicing: drop `start`, take at most
`questions_per_block`, clamping silently at the end of the sequence. -/
def mkBlocks (answers : List ℤ) (questions_per_block total_blocks : ℕ) :
    List (List ℤ) :=
  (List.range total_blocks).map fun i =>
    (answers.drop (i * questions_per_block)).take questions_per_block

/-- `sum(1 for val in block if val != 0)`: the number of non-zero values of a
block. -/
def countNZ (block : List ℤ) : ℕ :=
  (block.filter fun v => v ≠ 0).length

/-- Python `max` over a list, with the guard `... if blocks else 0` of line 98
folded in: `max` of a non-empty list, `0` for the empty list. -/
def pyMax : List ℕ → ℕ
  | [] => 0
  | h :: t => t.foldl max h

/-- `max_rows` of the `else` branch (NORMAL case, and KDMC with ≤ 17 blocks):

    max_rows = max([sum(1 for val in block if val != 0) for block in blocks]) if blocks else 0
-/
def maxRowsNormal (blocks : List (List ℤ)) : ℕ :=
  pyMax (blocks.map countNZ)

/-- The case selection of `process_data`:

    if case_type == "KDMC CASE" and len(blocks) > 17:
        block1_count = sum(1 for val in blocks[0] if val != 0)
        block18_count = sum(1 for val in blocks[17] if val != 0)
        max_rows = block1_count + block18_count
    else:
        max_rows = ...  (NORMAL rule)
-/
def maxRows (case_type : String) (blocks : List (List ℤ)) : ℕ :=
  if case_type = "KDMC CASE" ∧ blocks.length > 17 then
    countNZ (blocks.getD 0 []) + countNZ (blocks.getD 17 [])
  else
    maxRowsNormal blocks

/-- One output row: the respondent's metadata values plus the `Q1..Qn`
values (`qvals.get j` is the field `Q(j+1)`). -/
structure OutRow where
  meta : List Cell
  qvals : List ℤ
deriving DecidableEq, Repr

/-- The row-generation loop of `process_data`:

    for i in range(max_rows):
        new_row = metadata.copy()
        for j, block_pattern in enumerate(blocks):
            new_row[f'Q{j+1}'] = block_pattern[i] if i < len(block_pattern) else 0
        output_rows.append(new_row)
-/
def genRows (meta : List Cell) (blocks : List (List ℤ)) (max_rows : ℕ) :
    List OutRow :=
  (List.range max_rows).map fun i =>
    { meta := meta, qvals := blocks.map fun b => b.getD i 0 }

/-- One respondent row of the input table, already split into metadata cells
and answer cells (`row[metadata_cols]` and `row[question_cols]`). -/
structure RespRow where
  meta : List Cell
  cells : List Cell
deriving DecidableEq, Repr

/-- The body of the per-respondent loop of `process_data`: clean the answer
cells, slice into blocks, compute `max_rows`, generate that many output
rows. -/
def processRow (questions_per_block total_blocks : ℕ) (case_type : String)
    (r : RespRow) : Except PyErr (List OutRow) :=
  match cleanAll r.cells with
  | .error e => .error e
  | .ok answers =>
    let blocks := mkBlocks answers questions_per_block total_blocks
    .ok (genRows r.meta blocks (maxRows case_type blocks))

/-- The whole reshaping transform over a loaded table: the outer
`for _, row in df.iterrows()` loop, accumulating `output_rows` in input
order; an uncaught exception anywhere aborts the call with no output. -/
def processData (questions_per_block total_blocks : ℕ) (case_type : String) :
    List RespRow → Except PyErr (List OutRow)
  | [] => .ok []
  | r :: rs =>
    match processRow questions_per_block total_blocks case_type r with
    | .error e => .error e
    | .ok out =>
      match processData questions_per_block total_blocks case_type rs with
      | .error e => .error e
      | .ok rest => .ok (out ++ rest)

/-- Decidable equality of `Except` results, so that concrete runs of the
embedded functions can be checked by `decide`. -/
instance instDecEqExcept {ε α : Type} [DecidableEq ε] [DecidableEq α] :
    DecidableEq (Except ε α)
  | .error e, .error f =>
    if h : e = f then .isTrue (by rw [h])
    else .isFalse fun hc => h (Except.error.inj hc)
  | .error _, .ok _ => .isFalse fun hc => Except.noConfusion hc
  | .ok _, .error _ => .isFalse fun hc => Except.noConfusion hc
  | .ok a, .ok b =>
    if h : a = b then .isTrue (by rw [h])
    else .isFalse fun hc => h (Except.ok.inj hc)

/- ### Auxiliary lemmas -/

theorem foldl_max_le {c : ℕ} : ∀ (t : List ℕ) (a : ℕ), a ≤ c → (∀ x ∈ t, x ≤ c) →
    t.foldl max a ≤ c
  | [], a, ha, _ => ha
  | x :: t, a, ha, ht => by
    refine foldl_max_le t (max a x) ?_ fun y hy => ht y (List.mem_cons_of_mem _ hy)
    exact max_le ha (ht x (List.mem_cons_self _ _))

theorem le_foldl_max : ∀ (t : List ℕ) (a : ℕ), a ≤ t.foldl max a
  | [], _ => le_rfl
  | x :: t, a => le_trans (le_max_left a x) (le_foldl_max t (max a x))

theorem mem_le_foldl_max : ∀ (t : List ℕ) (a x : ℕ), x ∈ t → x ≤ t.foldl max a
  | y :: t, a, x, hx => by
    rcases List.mem_cons.1 hx with h | h
    · subst h
      exact le_trans (le_max_right a x) (le_foldl_max t (max a x))
    · exact mem_le_foldl_max t (max a y) x h

theorem foldl_max_mem : ∀ (t : List ℕ) (a : ℕ), t.foldl max a = a ∨ t.foldl max a ∈ t
  | [], _ => Or.inl rfl
  | x :: t, a => by
    rcases foldl_max_mem t (max a x) with h | h
    · rcases max_choice a x with hm | hm
      · exact Or.inl (by rw [List.foldl_cons, h, hm])
      · refine Or.inr ?_
        rw [List.foldl_cons, h, hm]
        exact List.mem_cons_self _ _
    · exact Or.inr (List.mem_cons_of_mem _ h)

theorem pyMax_le {l : List ℕ} {c : ℕ} (h : ∀ x ∈ l, x ≤ c) : pyMax l ≤ c := by
  cases l with
  | nil => exact Nat.zero_le c
  | cons x t =>
    exact foldl_max_le t x (h x (List.mem_cons_self _ _))
      fun y hy => h y (List.mem_cons_of_mem _ hy)

theorem le_pyMax {l : List ℕ} {x : ℕ} (h : x ∈ l) : x ≤ pyMax l := by
  cases l with
  | nil => cases h
  | cons y t =>
    rcases List.mem_cons.1 h with h | h
    · subst h; exact le_foldl_max t x
    · exact mem_le_foldl_max t y x h

theorem pyMax_mem {l : List ℕ} (h : l ≠ []) : pyMax l ∈ l := by
  cases l with
  | nil => exact absurd rfl h
  | cons x t =>
    rcases foldl_max_mem t x with h | h
    · rw [pyMax, h]; exact List.mem_cons_self _ _
    · exact List.mem_cons_of_mem _ h

theorem countNZ_le_length (b : List ℤ) : countNZ b ≤ b.length :=
  List.length_filter_le _ b

theorem countNZ_eq_zero {b : List ℤ} (h : ∀ v ∈ b, v = 0) : countNZ b = 0 := by
  rw [countNZ, List.length_eq_zero, List.filter_eq_nil_iff]
  intro v hv
  simp [h v hv]

theorem length_mkBlocks (answers : List ℤ) (q n : ℕ) :
    (mkBlocks answers q n).length = n := by
  simp [mkBlocks]

theorem mkBlocks_getD {i n : ℕ} (answers : List ℤ) (q : ℕ) (h : i < n) :
    (mkBlocks answers q n).getD i [] = (answers.drop (i * q)).take q := by
  rw [mkBlocks, List.getD_eq_getElem?_getD, List.getElem?_map, List.getElem?_range h]
  rfl

theorem mem_mkBlocks_length_le {answers : List ℤ} {q n : ℕ} {b : List ℤ}
    (h : b ∈ mkBlocks answers q n) : b.length ≤ q := by
  rw [mkBlocks, List.mem_map] at h
  obtain ⟨i, -, rfl⟩ := h
  exact List.length_take_le _ _

theorem flatten_mkBlocks (answers : List ℤ) (q : ℕ) :
    ∀ n, (mkBlocks answers q n).flatten = answers.take (n * q)
  | 0 => by simp [mkBlocks]
  | n + 1 => by
    rw [mkBlocks, List.range_succ, List.map_append, List.flatten_append]
    rw [show (List.range n).map
          (fun i => (answers.drop (i * q)).take q) = mkBlocks answers q n from rfl]
    rw [flatten_mkBlocks answers q n]
    simp [Nat.succ_mul, List.take_add]

theorem length_genRows (meta : List Cell) (blocks : List (List ℤ)) (m : ℕ) :
    (genRows meta blocks m).length = m := by
  simp [genRows]

theorem genRows_getD {i m : ℕ} (meta : List Cell) (blocks : List (List ℤ))
    (h : i < m) (d : OutRow) :
    (genRows meta blocks m).getD i d =
      { meta := meta, qvals := blocks.map fun b => b.getD i 0 } := by
  rw [genRows, List.getD_eq_getElem?_getD, List.getElem?_map, List.getElem?_range h]
  rfl

theorem mem_genRows {meta : List Cell} {blocks : List (List ℤ)} {m : ℕ} {r : OutRow}
    (h : r ∈ genRows meta blocks m) :
    r.meta = meta ∧ r.qvals.length = blocks.length := by
  rw [genRows, List.mem_map] at h
  obtain ⟨i, -, rfl⟩ := h
  simp

theorem decMag_int (k : ℤ) : decMag ⟨decide (k < 0), k.natAbs, 0⟩ = k.natAbs := by
  simp [decMag]

theorem decTrunc_int (k : ℤ) : decTrunc ⟨decide (k < 0), k.natAbs, 0⟩ = k := by
  rw [decTrunc, decMag_int]
  by_cases h : k < 0
  · rw [if_pos (by simpa using h)]
    omega
  · rw [if_neg (by simpa using h)]
    omega

theorem cleanCell_intCell (k : ℤ) : cleanCell (intCell k) = .ok k := by
  have h : cleanCell (intCell k) = .ok (decTrunc ⟨decide (k < 0), k.natAbs, 0⟩) := rfl
  rw [h, decTrunc_int]

theorem cleanAll_map_intCell : ∀ l : List ℤ, cleanAll (l.map intCell) = .ok l
  | [] => rfl
  | k :: l => by
    rw [List.map_cons, cleanAll, cleanCell_intCell, cleanAll_map_intCell l]

theorem decTrunc_nonneg {d : Dec} (h : d.neg = false) : 0 ≤ decTrunc d := by
  rw [decTrunc, h]
  exact Int.ofNat_nonneg _

theorem processData_cons_ok {q n : ℕ} {ct : String} {r : RespRow} {rs : List RespRow}
    {out : List OutRow} (h : processData q n ct (r :: rs) = .ok out) :
    ∃ o rest, processRow q n ct r = .ok o ∧ processData q n ct rs = .ok rest ∧
      out = o ++ rest := by
  rw [processData] at h
  cases ho : processRow q n ct r with
  | error e => rw [ho] at h; cases h
  | ok o =>
    rw [ho] at h
    cases hr : processData q n ct rs with
    | error e => rw [hr] at h; cases h
    | ok rest =>
      rw [hr] at h
      exact ⟨o, rest, rfl, rfl, (Except.ok.inj h).symm⟩

theorem processData_append_ok {q n : ℕ} {ct : String} :
    ∀ {xs : List RespRow} {ys : List RespRow} {out : List OutRow},
      processData q n ct (xs ++ ys) = .ok out →
      ∃ a b, processData q n ct xs = .ok a ∧ processData q n ct ys = .ok b ∧
        out = a ++ b
  | [], ys, out, h => ⟨[], out, rfl, h, rfl⟩
  | x :: xs, ys, out, h => by
    rw [List.cons_append] at h
    obtain ⟨o, rest, ho, hrest, hout⟩ := processData_cons_ok h
    obtain ⟨a, b, ha, hb, hab⟩ := processData_append_ok hrest
    refine ⟨o ++ a, b, ?_, hb, by rw [hout, hab, List.append_assoc]⟩
    rw [processData, ho, ha]

theorem processRow_ok {q n : ℕ} {ct : String} {r : RespRow} {out : List OutRow}
    (h : processRow q n ct r = .ok out) :
    ∃ answers, cleanAll r.cells = .ok answers ∧
      out = genRows r.meta (mkBlocks answers q n)
        (maxRows ct (mkBlocks answers q n)) := by
  rw [processRow] at h
  cases hc : cleanAll r.cells with
  | error e => rw [hc] at h; cases h
  | ok answers =>
    rw [hc] at h
    exact ⟨answers, rfl, (Except.ok.inj h).symm⟩

/- ### Claim theorems -/

/-- C7: the cleaning function maps the string "7" to 7, the string " 3.0 " to
3, the empty string to 0, the string "abc" to 0, a missing/null cell to 0, and
the float 7.9 (the exact decimal `79·10⁻¹`) to 7 by truncation. -/
theorem clean_val_documented_examples :
    clean_val (Cell.text "7") = .ok 7 ∧
    clean_val (Cell.text " 3.0 ") = .ok 3 ∧
    clean_val (Cell.text "") = .ok 0 ∧
    clean_val (Cell.text "abc") = .ok 0 ∧
    cleanCell Cell.missing = .ok 0 ∧
    clean_val (Cell.num ⟨false, 79, -1⟩) = .ok 7 := by
  decide

/-- C4: the claim that cell cleaning never raises once the table is loaded is
violated by the code: a textual cell "inf" (likewise "-inf", or any numeral
overflowing the float range such as "1e400") parses to an infinite float, and
`int()` on it raises `OverflowError`, which the `except (ValueError,
TypeError)` clause of `clean_val` does not catch; the exception escapes and
aborts the whole transform instead of degrading the cell to 0. -/
theorem clean_val_raises_on_infinite_floats :
    clean_val (Cell.text "inf") = .error PyErr.overflowError ∧
    clean_val (Cell.text "-inf") = .error PyErr.overflowError ∧
    clean_val (Cell.text "1e400") = .error PyErr.overflowError ∧
    processData 1 1 "Normal Case" [⟨[], [Cell.text "inf"]⟩] =
      .error PyErr.overflowError := by
  decide

/-- C8: cleaning is idempotent: feeding a cleaned value (an integer cell) back
through cleaning returns it unchanged, so `clean (clean x) = clean x` in the
Kleisli sense (and a cell on which cleaning raises, raises identically both
ways). -/
theorem clean_val_idempotent (x : Cell) :
    Except.bind (cleanCell x) (fun n => cleanCell (intCell n)) = cleanCell x := by
  cases h : cleanCell x with
  | error e => rfl
  | ok n => exact cleanCell_intCell n

/-- C6 counterexample: the textual cell "-3" cleans to the negative integer
-3, so the cleaned answer value is not always non-negative. -/
theorem clean_val_negative_counterexample :
    clean_val (Cell.text "-3") = .ok (-3) ∧ ¬ (0 ≤ (-3 : ℤ)) := by
  decide

/-- C6 (amended): the cleaned answer value is always an integer, with 0 the
sentinel for "no answer": missing cells, unparseable text and NaN all clean to
0, and the cleaned value is non-negative whenever the raw cell's value is
non-negative (for a negative numeric cell it is negative, not clamped). -/
theorem clean_val_integer_sentinel :
    (cleanCell Cell.missing = .ok 0) ∧
    (∀ s, pyFloatOfString (pyStrip s) = none → clean_val (Cell.text s) = .ok 0) ∧
    (∀ s, pyFloatOfString (pyStrip s) = some PyFloat.nan →
      clean_val (Cell.text s) = .ok 0) ∧
    (∀ d : Dec, d.neg = false →
      0 ≤ decTrunc d ∧ clean_val (Cell.num d) = .ok (decTrunc d)) ∧
    (∀ s d, pyFloatOfString (pyStrip s) = some (PyFloat.finite d) →
      d.neg = false → ∃ n : ℤ, clean_val (Cell.text s) = .ok n ∧ 0 ≤ n) := by
  refine ⟨rfl, ?_, ?_, ?_, ?_⟩
  · intro s h
    simp only [clean_val, h]
  · intro s h
    simp only [clean_val, h]
    rfl
  · intro d h
    exact ⟨decTrunc_nonneg h, rfl⟩
  · intro s d h hneg
    refine ⟨decTrunc d, ?_, decTrunc_nonneg hneg⟩
    simp only [clean_val, h]
    rfl

/-- Witness for C6 (amended): instantiated at the unparseable cell "abc" and
at the non-negative decimal 7.9. -/
theorem clean_val_integer_sentinel_witness :
    clean_val (Cell.text "abc") = .ok 0 ∧ 0 ≤ decTrunc ⟨false, 79, -1⟩ :=
  ⟨clean_val_integer_sentinel.2.1 "abc" (by decide),
   (clean_val_integer_sentinel.2.2.2.1 ⟨false, 79, -1⟩ rfl).1⟩

/-- C1 counterexample: on the claim's own scenario (metadata `[ID]`, block
size 2, block count 2, NORMAL mode, cells `[1,0,0,2]`) the code produces
exactly one output row `{ID:1, Q1:1, Q2:0}`, not the two rows the claim
predicts: line 98 takes the maximum *count* of non-zero values per block
(`max(1,1) = 1`), not the maximum last-non-zero position (`max(1,2) = 2`). -/
theorem normal_mode_scenario_counterexample :
    processData 2 2 "Normal Case"
        [⟨[intCell 1], [intCell 1, intCell 0, intCell 0, intCell 2]⟩] =
      .ok [⟨[intCell 1], [1, 0]⟩] ∧
    (Except.ok [⟨[intCell 1], [1, 0]⟩] :
        Except PyErr (List OutRow)) ≠
      .ok [⟨[intCell 1], [1, 0]⟩, ⟨[intCell 1], [0, 2]⟩] := by
  decide

/-- C1 (amended): in NORMAL mode `max_rows` is the maximum over all blocks of
the *count* of non-zero cleaned values in that block (0 for an all-zero
block); a respondent with no non-zero value in any block produces no output
rows; and the scenario (metadata `[ID]`, block size 2, block count 2, cells
`[1,0,0,2]`) yields exactly the one row `{ID:1, Q1:1, Q2:0}`. -/
theorem normal_mode_max_count_rule :
    (∀ blocks : List (List ℤ), ∀ b ∈ blocks, countNZ b ≤ maxRowsNormal blocks) ∧
    (∀ blocks : List (List ℤ), blocks ≠ [] →
      ∃ b ∈ blocks, maxRowsNormal blocks = countNZ b) ∧
    (∀ blocks : List (List ℤ),
      maxRows "Normal Case" blocks = maxRowsNormal blocks) ∧
    (∀ (meta : List Cell) (blocks : List (List ℤ)),
      (∀ b ∈ blocks, ∀ v ∈ b, v = 0) →
      genRows meta blocks (maxRowsNormal blocks) = []) ∧
    processData 2 2 "Normal Case"
        [⟨[intCell 1], [intCell 1, intCell 0, intCell 0, intCell 2]⟩] =
      .ok [⟨[intCell 1], [1, 0]⟩] := by
  refine ⟨?_, ?_, ?_, ?_, by decide⟩
  · intro blocks b hb
    exact le_pyMax (List.mem_map_of_mem countNZ hb)
  · intro blocks hne
    have h : pyMax (blocks.map countNZ) ∈ blocks.map countNZ :=
      pyMax_mem (by simpa using hne)
    rw [List.mem_map] at h
    obtain ⟨b, hb, he⟩ := h
    exact ⟨b, hb, he.symm⟩
  · intro blocks
    rw [maxRows, if_neg]
    rintro ⟨hs, -⟩
    exact absurd hs (by decide)
  · intro meta blocks hz
    have h0 : maxRowsNormal blocks = 0 := by
      refine Nat.le_zero.1 (pyMax_le ?_)
      intro x hx
      rw [List.mem_map] at hx
      obtain ⟨b, hb, rfl⟩ := hx
      rw [countNZ_eq_zero (hz b hb)]
    rw [h0]
    rfl

/-- Witness for C1 (amended): the count bound at blocks `[[1,0],[0,2]]` and
the empty output of an all-zero respondent. -/
theorem normal_mode_max_count_rule_witness :
    countNZ [0, 2] ≤ maxRowsNormal [[1, 0], [0, 2]] ∧
    genRows [] [[0, 0], [0]] (maxRowsNormal [[0, 0], [0]]) = [] :=
  ⟨normal_mode_max_count_rule.1 [[1, 0], [0, 2]] [0, 2] (by decide),
   normal_mode_max_count_rule.2.2.2.1 [] [[0, 0], [0]] (by decide)⟩

/-- C2: in KDMC mode with more than 17 blocks, `max_rows` is the count of
non-zero values in block 0 plus the count in block 17, independent of every
other block; with 17 or fewer blocks the NORMAL rule is used instead. -/
theorem kdmc_mode_rule :
    (∀ blocks : List (List ℤ), blocks.length > 17 →
      maxRows "KDMC CASE" blocks =
        countNZ (blocks.getD 0 []) + countNZ (blocks.getD 17 [])) ∧
    (∀ blocks : List (List ℤ), blocks.length ≤ 17 →
      maxRows "KDMC CASE" blocks = maxRowsNormal blocks) ∧
    (∀ blocks blocks' : List (List ℤ), blocks.length > 17 →
      blocks'.length > 17 → blocks.getD 0 [] = blocks'.getD 0 [] →
      blocks.getD 17 [] = blocks'.getD 17 [] →
      maxRows "KDMC CASE" blocks = maxRows "KDMC CASE" blocks') := by
  refine ⟨?_, ?_, ?_⟩
  · intro blocks h
    rw [maxRows, if_pos ⟨rfl, h⟩]
  · intro blocks h
    rw [maxRows, if_neg]
    rintro ⟨-, hl⟩
    omega
  · intro blocks blocks' h h' e0 e17
    rw [maxRows, if_pos ⟨rfl, h⟩, maxRows, if_pos ⟨rfl, h'⟩, e0, e17]

/-- Witness for C2: 18 identical blocks `[1,1]`; `max_rows = 2 + 2`. -/
theorem kdmc_mode_rule_witness :
    maxRows "KDMC CASE" (List.replicate 18 [1, 1]) =
      countNZ ((List.replicate 18 [1, 1]).getD 0 []) +
        countNZ ((List.replicate 18 [1, 1]).getD 17 []) :=
  kdmc_mode_rule.1 (List.replicate 18 [1, 1]) (by decide)

/-- C3 counterexample: with block size 1, 18 blocks and KDMC mode, answers
with a non-zero value in blocks 0 and 17 give `max_rows = 2` and two output
rows — exceeding the block size 1, so `max_rows ≤ block size` fails. -/
theorem kdmc_exceeds_block_size_counterexample :
    maxRows "KDMC CASE" (mkBlocks (1 :: (List.replicate 16 0 ++ [1])) 1 18) = 2 ∧
    processData 1 18 "KDMC CASE"
        [⟨[], (1 :: (List.replicate 16 0 ++ [1])).map intCell⟩] =
      .ok [⟨[], 1 :: (List.replicate 16 0 ++ [1])⟩, ⟨[], List.replicate 18 0⟩] ∧
    ¬ ((2 : ℕ) ≤ 1) := by
  decide

/-- C3 (amended): the number of output rows always equals the computed
`max_rows`, and `max_rows` (a natural number, hence ≥ 0) is at most the block
size whenever the KDMC branch is not taken, and at most twice the block size
in general (the KDMC rule adds the counts of two blocks). -/
theorem output_row_count_eq_max_rows :
    ∀ (meta : List Cell) (answers : List ℤ) (qpb n : ℕ) (ct : String),
      (genRows meta (mkBlocks answers qpb n)
          (maxRows ct (mkBlocks answers qpb n))).length =
        maxRows ct (mkBlocks answers qpb n) ∧
      processRow qpb n ct ⟨meta, answers.map intCell⟩ =
        .ok (genRows meta (mkBlocks answers qpb n)
          (maxRows ct (mkBlocks answers qpb n))) ∧
      (¬ (ct = "KDMC CASE" ∧ n > 17) →
        maxRows ct (mkBlocks answers qpb n) ≤ qpb) ∧
      maxRows ct (mkBlocks answers qpb n) ≤ 2 * qpb := by
  intro meta answers qpb n ct
  have hnorm : maxRowsNormal (mkBlocks answers qpb n) ≤ qpb := by
    refine pyMax_le ?_
    intro x hx
    rw [List.mem_map] at hx
    obtain ⟨b, hb, rfl⟩ := hx
    exact le_trans (countNZ_le_length b) (mem_mkBlocks_length_le hb)
  have hgetD : ∀ i, i < n →
      countNZ ((mkBlocks answers qpb n).getD i []) ≤ qpb := by
    intro i hi
    rw [mkBlocks_getD answers qpb hi]
    exact le_trans (countNZ_le_length _) (List.length_take_le _ _)
  refine ⟨length_genRows _ _ _, ?_, ?_, ?_⟩
  · have hc : cleanAll (RespRow.mk meta (answers.map intCell)).cells =
        .ok answers := cleanAll_map_intCell answers
    rw [processRow, hc]
  · intro hcond
    rw [maxRows, if_neg]
    · exact hnorm
    · rintro ⟨hs, hl⟩
      rw [length_mkBlocks] at hl
      exact hcond ⟨hs, hl⟩
  · rw [maxRows]
    split
    · rename_i hcond
      have hl := hcond.2
      rw [length_mkBlocks] at hl
      have h0 := hgetD 0 (by omega)
      have h17 := hgetD 17 (by omega)
      omega
    · omega

/-- Witness for C3 (amended): the NORMAL scenario, where `max_rows ≤ block
size` holds with block size 2. -/
theorem output_row_count_eq_max_rows_witness :
    maxRows "Normal Case" (mkBlocks [1, 0, 0, 2] 2 2) ≤ 2 ∧
    maxRows "Normal Case" (mkBlocks [1, 0, 0, 2] 2 2) ≤ 2 * 2 :=
  ⟨(output_row_count_eq_max_rows [] [1, 0, 0, 2] 2 2 "Normal Case").2.2.1
      (by decide),
   (output_row_count_eq_max_rows [] [1, 0, 0, 2] 2 2 "Normal Case").2.2.2⟩

/-- C9: block slicing is total and clamps silently: there are always exactly
`total_blocks` blocks, taken at consecutive offsets `i · block_size` (their
concatenation is exactly the first `total_blocks · block_size` answer cells,
so trailing answer columns beyond the product are ignored), every block has
length at most `block_size`, a block starting past the end of the answers is
an empty list, and a block that fits entirely has full length. -/
theorem mkBlocks_total_and_clamped :
    ∀ (answers : List ℤ) (qpb n : ℕ),
      (mkBlocks answers qpb n).length = n ∧
      (mkBlocks answers qpb n).flatten = answers.take (n * qpb) ∧
      (∀ i, i < n → (mkBlocks answers qpb n).getD i [] =
        (answers.drop (i * qpb)).take qpb) ∧
      (∀ b ∈ mkBlocks answers qpb n, b.length ≤ qpb) ∧
      (∀ i, i < n → answers.length ≤ i * qpb →
        (mkBlocks answers qpb n).getD i [] = []) ∧
      (∀ i, i < n → (i + 1) * qpb ≤ answers.length →
        ((mkBlocks answers qpb n).getD i []).length = qpb) := by
  intro answers qpb n
  refine ⟨length_mkBlocks answers qpb n, flatten_mkBlocks answers qpb n,
    fun i hi => mkBlocks_getD answers qpb hi,
    fun b hb => mem_mkBlocks_length_le hb, ?_, ?_⟩
  · intro i hi hpast
    rw [mkBlocks_getD answers qpb hi, List.drop_eq_nil_of_le hpast,
      List.take_nil]
  · intro i hi hfit
    rw [mkBlocks_getD answers qpb hi, List.length_take, List.length_drop]
    rw [Nat.succ_mul] at hfit
    omega

/-- Witness for C9: a block past the end is empty; a block that fits is
full-length. -/
theorem mkBlocks_total_and_clamped_witness :
    (mkBlocks [5] 2 3).getD 2 [] = [] ∧
    ((mkBlocks [1, 2, 3] 2 1).getD 0 []).length = 2 :=
  ⟨(mkBlocks_total_and_clamped [5] 2 3).2.2.2.2.1 2 (by decide) (by decide),
   (mkBlocks_total_and_clamped [1, 2, 3] 2 1).2.2.2.2.2 0 (by decide)
     (by decide)⟩

/-- C10: the block list always has exactly `total_blocks` entries (blocks
lying past the available answers are empty lists, not omitted), every
generated output row consists of the metadata plus exactly the fields
`Q1..Q{total_blocks}`, and the KDMC applicability test `len(blocks) > 17`
depends only on `total_blocks`, never on the answers. -/
theorem blocks_count_independent_of_answers :
    ∀ (answers answers' : List ℤ) (qpb n m : ℕ) (meta : List Cell)
      (ct : String),
      (mkBlocks answers qpb n).length = n ∧
      (∀ r ∈ genRows meta (mkBlocks answers qpb n) m,
        r.meta = meta ∧ r.qvals.length = n) ∧
      ((ct = "KDMC CASE" ∧ (mkBlocks answers qpb n).length > 17) ↔
        (ct = "KDMC CASE" ∧ n > 17)) ∧
      ((mkBlocks answers qpb n).length > 17 ↔
        (mkBlocks answers' qpb n).length > 17) := by
  intro answers answers' qpb n m meta ct
  refine ⟨length_mkBlocks answers qpb n, ?_, ?_, ?_⟩
  · intro r hr
    obtain ⟨h1, h2⟩ := mem_genRows hr
    exact ⟨h1, by rw [h2, length_mkBlocks]⟩
  · rw [length_mkBlocks]
  · rw [length_mkBlocks, length_mkBlocks]

/-- Witness for C10: the single output row of the scenario respondent has the
metadata and exactly 2 `Q` fields. -/
theorem blocks_count_independent_of_answers_witness :
    (⟨[intCell 1], [1, 0]⟩ : OutRow).meta = [intCell 1] ∧
    (⟨[intCell 1], [1, 0]⟩ : OutRow).qvals.length = 2 :=
  (blocks_count_independent_of_answers [1, 0, 0, 2] [] 2 2 1 [intCell 1]
      "Normal Case").2.1 ⟨[intCell 1], [1, 0]⟩ (by decide)

/-- C5: a respondent whose processing succeeds contributes a consecutive
segment of the output table; each of its rows copies the respondent's
metadata verbatim, and row `i`'s field `Q(j+1)` is the value at position `i`
of block `j` when `i` is within that block's length and `0` otherwise
(`blk.getD i 0`). -/
theorem respondent_rows_consecutive :
    ∀ (qpb n : ℕ) (ct : String) (pre suf : List RespRow) (r : RespRow)
      (out : List OutRow),
      processData qpb n ct (pre ++ r :: suf) = .ok out →
      ∃ a rws b answers,
        out = a ++ rws ++ b ∧
        cleanAll r.cells = .ok answers ∧
        rws.length = maxRows ct (mkBlocks answers qpb n) ∧
        (∀ orow ∈ rws, orow.meta = r.meta) ∧
        (∀ i, i < rws.length →
          rws.getD i ⟨[], []⟩ =
            ⟨r.meta, (mkBlocks answers qpb n).map fun blk => blk.getD i 0⟩) := by
  intro qpb n ct pre suf r out h
  obtain ⟨a, rest, ha, hrest, hout⟩ := processData_append_ok h
  obtain ⟨rws, b, hrow, hb, hrb⟩ := processData_cons_ok hrest
  obtain ⟨answers, hc, hrws⟩ := processRow_ok hrow
  refine ⟨a, rws, b, answers, ?_, hc, ?_, ?_, ?_⟩
  · rw [hout, hrb, List.append_assoc]
  · rw [hrws, length_genRows]
  · intro orow hm
    rw [hrws] at hm
    exact (mem_genRows hm).1
  · intro i hi
    rw [hrws, length_genRows] at hi
    rw [hrws, genRows_getD r.meta _ hi]

/-- Witness for C5: the scenario respondent alone in the table. -/
theorem respondent_rows_consecutive_witness :
    ∃ a rws b answers,
      ([⟨[intCell 1], [1, 0]⟩] : List OutRow) = a ++ rws ++ b ∧
      cleanAll (RespRow.mk [intCell 1]
        [intCell 1, intCell 0, intCell 0, intCell 2]).cells = .ok answers ∧
      rws.length = maxRows "Normal Case" (mkBlocks answers 2 2) ∧
      (∀ orow ∈ rws,
        orow.meta = (RespRow.mk [intCell 1]
          [intCell 1, intCell 0, intCell 0, intCell 2]).meta) ∧
      (∀ i, i < rws.length →
        rws.getD i ⟨[], []⟩ =
          ⟨(RespRow.mk [intCell 1]
              [intCell 1, intCell 0, intCell 0, intCell 2]).meta,
            (mkBlocks answers 2 2).map fun blk => blk.getD i 0⟩) :=
  respondent_rows_consecutive 2 2 "Normal Case" [] []
    ⟨[intCell 1], [intCell 1, intCell 0, intCell 0, intCell 2]⟩
    [⟨[intCell 1], [1, 0]⟩] (by decide)

end FLN
